import Mathlib

/-!
Shallow embedding of `src/csv_me/conditions.py` (the boolean row-predicate
engine of csv_me): the `Condition` leaf type, the `Expression` tree, their
evaluation against a row, the deterministic tree formatter, and the
interactive expression builder modelled over a finite script of user inputs.

Modelling notes (all deviations are over collaborator layers, not the
engine itself):
* A pandas row (`pd.Series`) is modelled as an association list from column
  name to a cell that is either the missing marker (`NaN`, `pd.isna`) or a
  string; `row.get(col, "")` is first-match lookup with default `""`.
* Python `str.strip()` is modelled by `String.trim` (ASCII whitespace),
  `str.split()` by splitting on whitespace and dropping empty pieces,
  `str.isalpha()` by `Char.isAlpha` on every character of a non-empty
  string, and `int(...)` by `pyInt?` (optional sign and ASCII digits after
  stripping; exotic forms such as underscores or Unicode digits are outside
  the model).
* `rich.prompt.Prompt.ask` is modelled by consuming the next element of a
  script (`List String`) of user answers; an exhausted script is modelled
  as the user cancelling, since the real program would block for input.
-/

namespace CsvMe

/-- A cell of a pandas row: either the missing marker (`NaN`) or a string
value. -/
inductive Cell where
  | na
  | str (s : String)
deriving DecidableEq, Repr

/-- A row (`pd.Series`): an association list from column name to cell. -/
abbrev Row := List (String × Cell)

/-- First-match lookup of a column in a row (`row.get(col, ...)` present
case). -/
def rowLookup (row : Row) (c : String) : Option Cell :=
  match row.find? (fun p => p.1 == c) with
  | some p => some p.2
  | none => none

/-- The `Condition` dataclass: a single predicate evaluated against a row. -/
structure Condition where
  input_col : String
  operator : String
  value : Option String
deriving DecidableEq, Repr

/-- Python `str.strip()` on a character list: drop leading and trailing
whitespace. -/
def stripChars (cs : List Char) : List Char :=
  ((cs.dropWhile Char.isWhitespace).reverse.dropWhile Char.isWhitespace).reverse

/-- Python `str.strip()`: drop leading and trailing whitespace. -/
def pyStrip (s : String) : String := ⟨stripChars s.toList⟩

/-- Python `int(s.strip())` on plain ASCII numerals: strip whitespace,
optional sign, non-empty digit run; `none` when the parse raises
`ValueError`. -/
def digitsToNat? (cs : List Char) : Option Nat :=
  if cs.isEmpty then none
  else if cs.all Char.isDigit then
    some (cs.foldl (fun n c => n * 10 + (c.toNat - 48)) 0)
  else none

/-- Python `int(...)` on a string (see `digitsToNat?`). -/
def pyInt? (s : String) : Option Int :=
  match stripChars s.toList with
  | '+' :: rest => (digitsToNat? rest).map (fun n => (n : Int))
  | '-' :: rest => (digitsToNat? rest).map (fun n => -(n : Int))
  | cs => (digitsToNat? cs).map (fun n => (n : Int))

/-- Python `s.split(":", 1)`: split at the first colon only (a string
without a colon stays whole). -/
def splitColon1 (s : String) : List String :=
  match s.toList.span (fun c => c != ':') with
  | (_, []) => [s]
  | (before, _ :: after) => [⟨before⟩, ⟨after⟩]

/-- Number of maximal non-whitespace runs of a character list (Python
`len(s.split())`); the boolean records whether the previous character was
inside a word. -/
def countWords : List Char → Bool → Nat
  | [], _ => 0
  | c :: rest, inWord =>
    if c.isWhitespace then countWords rest false
    else (if inWord then 0 else 1) + countWords rest true

/-- The expression `len(val.split()) if val else 0` of the `word_count` branch: number of
whitespace-separated words of `val`. -/
def pyWordCount (val : String) : Nat :=
  if val = "" then 0 else countWords val.toList false

/-- Python `needle in hay` on strings: substring containment. -/
def pyInStr (needle hay : String) : Bool :=
  decide (needle.toList <:+: hay.toList)

/-- Lines 129-130 of `_evaluate_single_condition`:
`raw = row.get(cond.input_col, "")` followed by
`val = "" if pd.isna(raw) else str(raw).strip()`. -/
def effectiveValue (row : Row) (c : String) : String :=
  match rowLookup row c with
  | none => ""
  | some Cell.na => ""
  | some (Cell.str s) => pyStrip s

/-- The parse of a `word_count` payload performed inside the `word_count`
branch of `_evaluate_single_condition`:
`parts = (cond.value or "").split(":", 1)`, the arity-2 check, and
`int(num_str)`; `none` for wrong arity or a non-integer number part. -/
def wordCountParse (v : Option String) : Option (String × Int) :=
  match splitColon1 (v.getD "") with
  | [k, s] =>
    match pyInt? s with
    | some n => some (k, n)
    | none => none
  | _ => none

/-- Lines 132-158 of `_evaluate_single_condition`: the operator dispatch on
the already-trimmed effective value `val`.  An unparsable `word_count`
payload, an unknown comparison kind, and an unknown operator all fall
through to the final `return False`. -/
def applyOperator (cond : Condition) (val : String) : Bool :=
  if cond.operator = "not_empty" then val != ""
  else if cond.operator = "equals" then val == cond.value.getD ""
  else if cond.operator = "not_equals" then val != cond.value.getD ""
  else if cond.operator = "contains" then
    pyInStr (cond.value.getD "") val
  else if cond.operator = "word_count" then
    let count : Int := pyWordCount val
    match wordCountParse cond.value with
    | none => false
    | some (cmpOp, num) =>
      if cmpOp = "gt" then decide (count > num)
      else if cmpOp = "lt" then decide (count < num)
      else if cmpOp = "eq" then decide (count = num)
      else false
  else if cond.operator = "alpha_only" then
    if val = "" then false
    else
      let stripped := val.toList.filter (fun c => c != ' ')
      !stripped.isEmpty && stripped.all Char.isAlpha
  else false

/-- Python `_evaluate_single_condition(row, cond)`: evaluate one condition against
a row (fetch and trim the cell, then dispatch on the operator). -/
def evaluate_single_condition (row : Row) (cond : Condition) : Bool :=
  applyOperator cond (effectiveValue row cond.input_col)

/-- Python `evaluate_conditions(row, conditions)`: AND over a flat list, early
exit on the first failing condition, `True` on the empty list. -/
def evaluate_conditions (row : Row) : List Condition → Bool
  | [] => true
  | cond :: rest =>
    if evaluate_single_condition row cond then evaluate_conditions row rest
    else false

/-- The `Expression` tagged union: a leaf `Condition`, `AndExpr`, `OrExpr`
or `NotExpr`. -/
inductive Expression where
  | cond (c : Condition)
  | AndExpr (children : List Expression)
  | OrExpr (children : List Expression)
  | NotExpr (child : Expression)

mutual

/-- Python `evaluate_expression(row, expr)`: recursively evaluate a boolean
expression tree against a row (`all` over `AndExpr` children, `any` over
`OrExpr` children, negation for `NotExpr`). -/
def evaluate_expression (row : Row) : Expression → Bool
  | Expression.cond c => evaluate_single_condition row c
  | Expression.AndExpr cs => evalAllChildren row cs
  | Expression.OrExpr cs => evalAnyChildren row cs
  | Expression.NotExpr c => !evaluate_expression row c

/-- Python `all(evaluate_expression(row, c) for c in expr.children)` with Python's
short-circuit. -/
def evalAllChildren (row : Row) : List Expression → Bool
  | [] => true
  | c :: cs => evaluate_expression row c && evalAllChildren row cs

/-- Python `any(evaluate_expression(row, c) for c in expr.children)` with Python's
short-circuit. -/
def evalAnyChildren (row : Row) : List Expression → Bool
  | [] => false
  | c :: cs => evaluate_expression row c || evalAnyChildren row cs

end

/-- Python `f"{x}"` on an optional string: `None` renders as `"None"`. -/
def pyOptStr : Option String → String
  | none => "None"
  | some s => s

/-- Wrap a string in double quotes, as the f-strings of
`format_condition` do. -/
def quoted (s : String) : String := "\"" ++ s ++ "\""

/-- Python `format_condition(cond)`: human-readable description of one
condition. -/
def format_condition (cond : Condition) : String :=
  if cond.operator = "not_empty" then quoted cond.input_col ++ " is not empty"
  else if cond.operator = "equals" then
    quoted cond.input_col ++ " equals " ++ quoted (pyOptStr cond.value)
  else if cond.operator = "not_equals" then
    quoted cond.input_col ++ " does not equal " ++ quoted (pyOptStr cond.value)
  else if cond.operator = "contains" then
    quoted cond.input_col ++ " contains " ++ quoted (pyOptStr cond.value)
  else if cond.operator = "word_count" then
    match splitColon1 (cond.value.getD "") with
    | [cmpOp, num] =>
      let sym :=
        if cmpOp = "gt" then ">"
        else if cmpOp = "lt" then "<"
        else if cmpOp = "eq" then "="
        else cmpOp
      quoted cond.input_col ++ " word count " ++ sym ++ " " ++ num
    | _ => quoted cond.input_col ++ " word count " ++ pyOptStr cond.value
  else if cond.operator = "alpha_only" then
    quoted cond.input_col ++ " is alpha-only"
  else
    quoted cond.input_col ++ " " ++ cond.operator ++ " "
      ++ quoted (pyOptStr cond.value)

/-- Python `"  " * depth`: indentation of one rendered line, `2 * depth` space
characters. -/
def indentOf (depth : Nat) : String :=
  ⟨List.replicate (2 * depth) ' '⟩

mutual

/-- Python `format_expression(expr, depth)`: indented tree display, one header
line per group node, children indented one level deeper, empty groups
rendered as `(empty)`. -/
def format_expression : Expression → Nat → String
  | Expression.cond c, depth => indentOf depth ++ format_condition c
  | Expression.AndExpr [], depth => indentOf depth ++ "ALL of: (empty)"
  | Expression.AndExpr (c :: cs), depth =>
    String.intercalate "\n"
      ((indentOf depth ++ "ALL of:") :: formatChildren (c :: cs) (depth + 1))
  | Expression.OrExpr [], depth => indentOf depth ++ "ANY of: (empty)"
  | Expression.OrExpr (c :: cs), depth =>
    String.intercalate "\n"
      ((indentOf depth ++ "ANY of:") :: formatChildren (c :: cs) (depth + 1))
  | Expression.NotExpr c, depth =>
    String.intercalate "\n"
      [indentOf depth ++ "NOT:", format_expression c (depth + 1)]

/-- The list `[format_expression(child, depth + 1) for child in children]`
built by the group branches of `format_expression`. -/
def formatChildren : List Expression → Nat → List String
  | [], _ => []
  | c :: cs, depth => format_expression c depth :: formatChildren cs depth

end

/-- The `OPERATORS` menu table. -/
def OPERATORS : List (String × String) :=
  [("not_empty", "Column is not empty"),
   ("equals", "Column equals value"),
   ("not_equals", "Column does not equal value"),
   ("contains", "Column contains value"),
   ("word_count", "Word count comparison"),
   ("alpha_only", "Column contains only letters and spaces")]

/-- The `WORD_COUNT_COMPARISONS` menu table. -/
def WORD_COUNT_COMPARISONS : List (String × String) :=
  [("gt", "Greater than"), ("lt", "Less than"), ("eq", "Equal to")]

/-- Python `_prompt_word_count_value()` over a script of user answers: choose a
comparison kind by 1-based index, then an integer; any invalid input
yields `none`.  Consumes the answers it reads and returns the rest of the
script. -/
def prompt_word_count_value : List String → Option String × List String
  | [] => (none, [])
  | raw :: rest =>
    match pyInt? raw with
    | none => (none, rest)
    | some cmpIdx =>
      if 1 ≤ cmpIdx ∧ cmpIdx ≤ (WORD_COUNT_COMPARISONS.length : Int) then
        let cmpOp := (WORD_COUNT_COMPARISONS.getD ((cmpIdx - 1).toNat) ("", "")).1
        match rest with
        | [] => (none, [])
        | numRaw :: rest2 =>
          match pyInt? numRaw with
          | none => (none, rest2)
          | some num => (some (cmpOp ++ ":" ++ toString num), rest2)
      else (none, rest)

/-- Python `_build_single_condition(columns)` over a script: pick an operator by
1-based index, a column by 1-based index, then a comparison value when the
operator needs one; every invalid input returns `none` ("no condition
produced"). -/
def build_single_condition (columns : List String) :
    List String → Option Condition × List String
  | [] => (none, [])
  | raw :: rest =>
    match pyInt? raw with
    | none => (none, rest)
    | some idx =>
      if 1 ≤ idx ∧ idx ≤ (OPERATORS.length : Int) then
        let op := (OPERATORS.getD ((idx - 1).toNat) ("", "")).1
        match rest with
        | [] => (none, [])
        | colRaw :: rest2 =>
          match pyInt? colRaw with
          | none => (none, rest2)
          | some colIdx =>
            if 1 ≤ colIdx ∧ colIdx ≤ (columns.length : Int) then
              let inCol := columns.getD ((colIdx - 1).toNat) ""
              if op = "word_count" then
                match prompt_word_count_value rest2 with
                | (none, rest3) => (none, rest3)
                | (some v, rest3) => (some ⟨inCol, op, some v⟩, rest3)
              else if op = "not_empty" ∨ op = "alpha_only" then
                (some ⟨inCol, op, none⟩, rest2)
              else
                match rest2 with
                | [] => (none, [])
                | v :: rest3 => (some ⟨inCol, op, some v⟩, rest3)
            else (none, rest2)
      else (none, rest)

mutual

/-- The `while True` loop of `_build_group(columns, group_type)` over a
script: `children` is the accumulated list, each turn reads a menu choice
(1 add condition, 2 add AND sub-group, 3 add OR sub-group, 4 add NOT, 0
done; anything else re-prompts).  An empty sub-group and a failed NOT are
discarded.  `fuel` bounds the number of loop turns; one unit is spent per
turn, so any `fuel ≥` script length is enough, and running out of script
is modelled as finishing the group. -/
def build_group_loop (columns : List String) (group_type : String)
    (children : List Expression) (fuel : Nat) (inp : List String) :
    List Expression × List String :=
  match fuel, inp with
  | 0, rest => (children, rest)
  | _ + 1, [] => (children, [])
  | fuel + 1, raw :: rest =>
    match pyInt? raw with
    | none => build_group_loop columns group_type children fuel rest
    | some choice =>
      if choice = 0 then (children, rest)
      else if choice = 1 then
        match build_single_condition columns rest with
        | (some c, rest2) =>
          build_group_loop columns group_type
            (children ++ [Expression.cond c]) fuel rest2
        | (none, rest2) =>
          build_group_loop columns group_type children fuel rest2
      else if choice = 2 then
        match build_group_loop columns "and" [] fuel rest with
        | ([], rest2) => build_group_loop columns group_type children fuel rest2
        | (c :: cs, rest2) =>
          build_group_loop columns group_type
            (children ++ [Expression.AndExpr (c :: cs)]) fuel rest2
      else if choice = 3 then
        match build_group_loop columns "or" [] fuel rest with
        | ([], rest2) => build_group_loop columns group_type children fuel rest2
        | (c :: cs, rest2) =>
          build_group_loop columns group_type
            (children ++ [Expression.OrExpr (c :: cs)]) fuel rest2
      else if choice = 4 then
        match build_not columns fuel rest with
        | (some e, rest2) =>
          build_group_loop columns group_type (children ++ [e]) fuel rest2
        | (none, rest2) =>
          build_group_loop columns group_type children fuel rest2
      else build_group_loop columns group_type children fuel rest
  termination_by (fuel, 0)

/-- Python `_build_not(columns)` over a script: choose what to negate (1 single
condition, 2 AND group, 3 OR group, 0 cancel); a negated group that comes
back empty discards the whole NOT (`none`). -/
def build_not (columns : List String) (fuel : Nat) (inp : List String) :
    Option Expression × List String :=
  match inp with
  | [] => (none, [])
  | raw :: rest =>
    match pyInt? raw with
    | none => (none, rest)
    | some choice =>
      if choice = 0 then (none, rest)
      else if choice = 1 then
        match build_single_condition columns rest with
        | (some c, rest2) =>
          (some (Expression.NotExpr (Expression.cond c)), rest2)
        | (none, rest2) => (none, rest2)
      else if choice = 2 then
        match build_group_loop columns "and" [] fuel rest with
        | ([], rest2) => (none, rest2)
        | (c :: cs, rest2) =>
          (some (Expression.NotExpr (Expression.AndExpr (c :: cs))), rest2)
      else if choice = 3 then
        match build_group_loop columns "or" [] fuel rest with
        | ([], rest2) => (none, rest2)
        | (c :: cs, rest2) =>
          (some (Expression.NotExpr (Expression.OrExpr (c :: cs))), rest2)
      else (none, rest)
  termination_by (fuel, 1)

end

/-- Python `_build_group(columns, group_type)`: run the group loop from an empty
children list and wrap the result in the node of the group's type. -/
def build_group (columns : List String) (group_type : String)
    (inp : List String) : Expression × List String :=
  let r := build_group_loop columns group_type [] inp.length inp
  (if group_type = "and" then Expression.AndExpr r.1 else Expression.OrExpr r.1,
   r.2)

/-- Python `build_expression(columns)`: public entry point; top-level items are
implicitly ANDed, so the result is always the `AndExpr` of the top-level
group (possibly with zero children). -/
def build_expression (columns : List String) (inp : List String) : Expression :=
  (build_group columns "and" inp).1

mutual

/-- No `AndExpr` or `OrExpr` node anywhere in the tree has an empty
children list (and the same holds under every `NotExpr`). -/
def noEmptyGroup : Expression → Bool
  | Expression.cond _ => true
  | Expression.AndExpr cs => !cs.isEmpty && noEmptyGroupList cs
  | Expression.OrExpr cs => !cs.isEmpty && noEmptyGroupList cs
  | Expression.NotExpr c => noEmptyGroup c

/-- Conjunction of `noEmptyGroup` over a children list. -/
def noEmptyGroupList : List Expression → Bool
  | [] => true
  | c :: cs => noEmptyGroup c && noEmptyGroupList cs

end

/-- The builder's guarantee at the top level: the tree is an `AndExpr`
(whose own children list may be empty) and every child is free of empty
nested groups. -/
def topLevelOk : Expression → Bool
  | Expression.AndExpr cs => noEmptyGroupList cs
  | _ => false

mutual

/-- Number of nodes of an expression tree (leaves and group nodes). -/
def nodeCount : Expression → Nat
  | Expression.cond _ => 1
  | Expression.AndExpr cs => 1 + nodeCountList cs
  | Expression.OrExpr cs => 1 + nodeCountList cs
  | Expression.NotExpr c => 1 + nodeCount c

/-- Total node count of a children list. -/
def nodeCountList : List Expression → Nat
  | [] => 0
  | c :: cs => nodeCount c + nodeCountList cs

end

/-- The text of a node's own line in `format_expression`, without its
indentation. -/
def nodeLabel : Expression → String
  | Expression.cond c => format_condition c
  | Expression.AndExpr [] => "ALL of: (empty)"
  | Expression.AndExpr (_ :: _) => "ALL of:"
  | Expression.OrExpr [] => "ANY of: (empty)"
  | Expression.OrExpr (_ :: _) => "ANY of:"
  | Expression.NotExpr _ => "NOT:"

mutual

/-- The rendered output of `format_expression`, as the list of its lines:
one entry per node, children flattened in order after their parent's
header line. -/
def exprLines : Expression → Nat → List String
  | Expression.cond c, d => [indentOf d ++ format_condition c]
  | Expression.AndExpr [], d => [indentOf d ++ "ALL of: (empty)"]
  | Expression.AndExpr (c :: cs), d =>
    (indentOf d ++ "ALL of:") :: exprLinesList (c :: cs) (d + 1)
  | Expression.OrExpr [], d => [indentOf d ++ "ANY of: (empty)"]
  | Expression.OrExpr (c :: cs), d =>
    (indentOf d ++ "ANY of:") :: exprLinesList (c :: cs) (d + 1)
  | Expression.NotExpr c, d => (indentOf d ++ "NOT:") :: exprLines c (d + 1)

/-- Lines of each child (`exprLines`), concatenated. -/
def exprLinesList : List Expression → Nat → List String
  | [], _ => []
  | c :: cs, d => exprLines c d ++ exprLinesList cs d

end

mutual

/-- Every leaf description in the tree is a single physical line (contains
no newline character). -/
def descriptionsOneLine : Expression → Bool
  | Expression.cond c => !(format_condition c).toList.contains '\n'
  | Expression.AndExpr cs => descriptionsOneLineList cs
  | Expression.OrExpr cs => descriptionsOneLineList cs
  | Expression.NotExpr c => descriptionsOneLine c

/-- Conjunction of `descriptionsOneLine` over a children list. -/
def descriptionsOneLineList : List Expression → Bool
  | [] => true
  | c :: cs => descriptionsOneLine c && descriptionsOneLineList cs

end

/-! ### Helper lemmas -/

theorem evalAllChildren_eq_all (row : Row) (cs : List Expression) :
    evalAllChildren row cs = cs.all (evaluate_expression row) := by
  induction cs with
  | nil => rfl
  | cons c cs ih => simp [evalAllChildren, List.all_cons, ih]

theorem evalAnyChildren_eq_any (row : Row) (cs : List Expression) :
    evalAnyChildren row cs = cs.any (evaluate_expression row) := by
  induction cs with
  | nil => rfl
  | cons c cs ih => simp [evalAnyChildren, List.any_cons, ih]

theorem noEmptyGroupList_eq_all (cs : List Expression) :
    noEmptyGroupList cs = cs.all noEmptyGroup := by
  induction cs with
  | nil => rfl
  | cons c cs ih => simp [noEmptyGroupList, List.all_cons, ih]

theorem intercalate_go_pull (s a b : String) (ys : List String) :
    String.intercalate.go (a ++ b) s ys = a ++ String.intercalate.go b s ys := by
  induction ys generalizing b with
  | nil => rfl
  | cons y ys ih =>
    show String.intercalate.go (a ++ b ++ s ++ y) s ys
        = a ++ String.intercalate.go (b ++ s ++ y) s ys
    rw [String.append_assoc a b s, String.append_assoc a (b ++ s) y]
    exact ih (b ++ s ++ y)

theorem intercalate_cons_ne_nil (s x : String) (xs : List String) (h : xs ≠ []) :
    String.intercalate s (x :: xs) = x ++ s ++ String.intercalate s xs := by
  rcases xs with _ | ⟨y, ys⟩
  · exact absurd rfl h
  · show String.intercalate.go (x ++ s ++ y) s ys
        = x ++ s ++ String.intercalate.go y s ys
    exact intercalate_go_pull s (x ++ s) y ys

theorem intercalate_append_ne_nil (s : String) (xs ys : List String)
    (hx : xs ≠ []) (hy : ys ≠ []) :
    String.intercalate s (xs ++ ys)
      = String.intercalate s xs ++ s ++ String.intercalate s ys := by
  rcases xs with _ | ⟨x, xs2⟩
  · exact absurd rfl hx
  · clear hx
    induction xs2 generalizing x with
    | nil =>
      rw [List.cons_append, List.nil_append,
        intercalate_cons_ne_nil s x ys hy]
      rfl
    | cons x2 xs3 ih =>
      show String.intercalate s (x :: x2 :: (xs3 ++ ys)) = _
      rw [intercalate_cons_ne_nil s x (x2 :: (xs3 ++ ys)) (by simp)]
      have h2 := ih x2
      rw [List.cons_append] at h2
      rw [h2, intercalate_cons_ne_nil s x (x2 :: xs3) (by simp)]
      simp [String.append_assoc]

theorem exprLines_ne_nil (e : Expression) (d : Nat) : exprLines e d ≠ [] := by
  cases e with
  | cond c => simp [exprLines]
  | AndExpr cs => cases cs <;> simp [exprLines]
  | OrExpr cs => cases cs <;> simp [exprLines]
  | NotExpr c => simp [exprLines]

theorem exprLinesList_ne_nil (c : Expression) (cs : List Expression) (d : Nat) :
    exprLinesList (c :: cs) d ≠ [] := by
  show exprLines c d ++ exprLinesList cs d ≠ []
  simp [exprLines_ne_nil]

mutual

theorem format_expression_eq_lines (e : Expression) (d : Nat) :
    format_expression e d = String.intercalate "\n" (exprLines e d) := by
  cases e with
  | cond c => rfl
  | AndExpr cs =>
    cases cs with
    | nil => rfl
    | cons c cs2 =>
      show String.intercalate "\n"
          ((indentOf d ++ "ALL of:") :: formatChildren (c :: cs2) (d + 1))
        = String.intercalate "\n"
          ((indentOf d ++ "ALL of:") :: exprLinesList (c :: cs2) (d + 1))
      rw [intercalate_cons_ne_nil "\n" (indentOf d ++ "ALL of:")
            (formatChildren (c :: cs2) (d + 1)) (by simp [formatChildren]),
          intercalate_cons_ne_nil "\n" (indentOf d ++ "ALL of:")
            (exprLinesList (c :: cs2) (d + 1)) (exprLinesList_ne_nil c cs2 (d + 1)),
          children_intercalate_eq (c :: cs2) (d + 1) (by simp)]
  | OrExpr cs =>
    cases cs with
    | nil => rfl
    | cons c cs2 =>
      show String.intercalate "\n"
          ((indentOf d ++ "ANY of:") :: formatChildren (c :: cs2) (d + 1))
        = String.intercalate "\n"
          ((indentOf d ++ "ANY of:") :: exprLinesList (c :: cs2) (d + 1))
      rw [intercalate_cons_ne_nil "\n" (indentOf d ++ "ANY of:")
            (formatChildren (c :: cs2) (d + 1)) (by simp [formatChildren]),
          intercalate_cons_ne_nil "\n" (indentOf d ++ "ANY of:")
            (exprLinesList (c :: cs2) (d + 1)) (exprLinesList_ne_nil c cs2 (d + 1)),
          children_intercalate_eq (c :: cs2) (d + 1) (by simp)]
  | NotExpr c =>
    show String.intercalate "\n" [indentOf d ++ "NOT:", format_expression c (d + 1)]
        = String.intercalate "\n" ((indentOf d ++ "NOT:") :: exprLines c (d + 1))
    rw [intercalate_cons_ne_nil "\n" (indentOf d ++ "NOT:")
          [format_expression c (d + 1)] (by simp),
        intercalate_cons_ne_nil "\n" (indentOf d ++ "NOT:")
          (exprLines c (d + 1)) (exprLines_ne_nil c (d + 1)),
        format_expression_eq_lines c (d + 1)]
    rfl

theorem children_intercalate_eq (cs : List Expression) (d : Nat) (h : cs ≠ []) :
    String.intercalate "\n" (formatChildren cs d)
      = String.intercalate "\n" (exprLinesList cs d) := by
  cases cs with
  | nil => exact absurd rfl h
  | cons c cs2 =>
    cases cs2 with
    | nil =>
      show String.intercalate "\n" [format_expression c d]
          = String.intercalate "\n" (exprLines c d ++ [])
      rw [List.append_nil, format_expression_eq_lines c d]
      rfl
    | cons c2 cs3 =>
      show String.intercalate "\n"
          (format_expression c d :: formatChildren (c2 :: cs3) d)
        = String.intercalate "\n" (exprLines c d ++ exprLinesList (c2 :: cs3) d)
      rw [intercalate_cons_ne_nil "\n" (format_expression c d)
            (formatChildren (c2 :: cs3) d) (by simp [formatChildren]),
          intercalate_append_ne_nil "\n" (exprLines c d)
            (exprLinesList (c2 :: cs3) d) (exprLines_ne_nil c d)
            (exprLinesList_ne_nil c2 cs3 d),
          format_expression_eq_lines c d,
          children_intercalate_eq (c2 :: cs3) d (by simp)]

end

mutual

theorem exprLines_length_eq (e : Expression) (d : Nat) :
    (exprLines e d).length = nodeCount e := by
  cases e with
  | cond c => rfl
  | AndExpr cs =>
    cases cs with
    | nil => rfl
    | cons c cs2 =>
      show ((indentOf d ++ "ALL of:") :: exprLinesList (c :: cs2) (d + 1)).length
          = 1 + nodeCountList (c :: cs2)
      rw [List.length_cons, exprLinesList_length_eq (c :: cs2) (d + 1)]
      omega
  | OrExpr cs =>
    cases cs with
    | nil => rfl
    | cons c cs2 =>
      show ((indentOf d ++ "ANY of:") :: exprLinesList (c :: cs2) (d + 1)).length
          = 1 + nodeCountList (c :: cs2)
      rw [List.length_cons, exprLinesList_length_eq (c :: cs2) (d + 1)]
      omega
  | NotExpr c =>
    show ((indentOf d ++ "NOT:") :: exprLines c (d + 1)).length = 1 + nodeCount c
    rw [List.length_cons, exprLines_length_eq c (d + 1)]
    omega

theorem exprLinesList_length_eq (cs : List Expression) (d : Nat) :
    (exprLinesList cs d).length = nodeCountList cs := by
  cases cs with
  | nil => rfl
  | cons c cs2 =>
    show (exprLines c d ++ exprLinesList cs2 d).length
        = nodeCount c + nodeCountList cs2
    rw [List.length_append, exprLines_length_eq c d,
      exprLinesList_length_eq cs2 d]

end

theorem contains_eq_false_iff (l : List Char) (a : Char) :
    l.contains a = false ↔ a ∉ l := by
  rw [show l.contains a = l.elem a from rfl, Bool.eq_false_iff]
  exact not_congr List.elem_iff

theorem no_newline_append (s t : String)
    (hs : s.toList.contains '\n' = false) (ht : t.toList.contains '\n' = false) :
    (s ++ t).toList.contains '\n' = false := by
  rw [contains_eq_false_iff] at hs ht ⊢
  intro h
  rw [show (s ++ t).toList = s.toList ++ t.toList from rfl] at h
  rcases List.mem_append.mp h with h | h
  exacts [hs h, ht h]

theorem indentOf_no_newline (d : Nat) :
    (indentOf d).toList.contains '\n' = false := by
  rw [contains_eq_false_iff]
  intro h
  have := List.eq_of_mem_replicate h
  exact absurd this (by decide)

mutual

theorem exprLines_no_newline (e : Expression) (d : Nat)
    (h : descriptionsOneLine e = true) :
    (exprLines e d).all (fun l => !l.toList.contains '\n') = true := by
  cases e with
  | cond c =>
    have ht : (format_condition c).toList.contains '\n' = false := by
      simpa [descriptionsOneLine] using h
    simp only [exprLines, List.all_cons, List.all_nil, Bool.and_true]
    rw [no_newline_append (indentOf d) (format_condition c)
      (indentOf_no_newline d) ht]
    rfl
  | AndExpr cs =>
    cases cs with
    | nil =>
      simp only [exprLines, List.all_cons, List.all_nil, Bool.and_true]
      rw [no_newline_append (indentOf d) "ALL of: (empty)"
        (indentOf_no_newline d) (by decide)]
      rfl
    | cons c cs2 =>
      have h2 := exprLinesList_no_newline (c :: cs2) (d + 1)
        (by simpa [descriptionsOneLine] using h)
      simp only [exprLines, List.all_cons]
      rw [no_newline_append (indentOf d) "ALL of:"
        (indentOf_no_newline d) (by decide), h2]
      rfl
  | OrExpr cs =>
    cases cs with
    | nil =>
      simp only [exprLines, List.all_cons, List.all_nil, Bool.and_true]
      rw [no_newline_append (indentOf d) "ANY of: (empty)"
        (indentOf_no_newline d) (by decide)]
      rfl
    | cons c cs2 =>
      have h2 := exprLinesList_no_newline (c :: cs2) (d + 1)
        (by simpa [descriptionsOneLine] using h)
      simp only [exprLines, List.all_cons]
      rw [no_newline_append (indentOf d) "ANY of:"
        (indentOf_no_newline d) (by decide), h2]
      rfl
  | NotExpr c =>
    have h2 := exprLines_no_newline c (d + 1)
      (by simpa [descriptionsOneLine] using h)
    simp only [exprLines, List.all_cons]
    rw [no_newline_append (indentOf d) "NOT:"
      (indentOf_no_newline d) (by decide), h2]
    rfl

theorem exprLinesList_no_newline (cs : List Expression) (d : Nat)
    (h : descriptionsOneLineList cs = true) :
    (exprLinesList cs d).all (fun l => !l.toList.contains '\n') = true := by
  cases cs with
  | nil => rfl
  | cons c cs2 =>
    have hsplit : (descriptionsOneLine c && descriptionsOneLineList cs2) = true := by
      simpa [descriptionsOneLineList] using h
    rw [Bool.and_eq_true] at hsplit
    obtain ⟨h1, h2⟩ := hsplit
    show (exprLines c d ++ exprLinesList cs2 d).all
        (fun l => !l.toList.contains '\n') = true
    rw [List.all_append, exprLines_no_newline c d h1,
      exprLinesList_no_newline cs2 d h2]
    rfl

end

theorem indent_prefix_self (d : Nat) (t : String) :
    (indentOf d).toList.isPrefixOf (indentOf d ++ t).toList = true := by
  rw [ List.isPrefixOf_iff_prefix]
  show (indentOf d).data <+: (indentOf d).data ++ t.data
  exact List.prefix_append _ _

theorem prefix_weaken (d : Nat) (l : List Char)
    (h : (indentOf (d + 1)).toList.isPrefixOf l = true) :
    (indentOf d).toList.isPrefixOf l = true := by
  rw [ List.isPrefixOf_iff_prefix] at h ⊢
  refine List.IsPrefix.trans ?_ h
  show List.replicate (2 * d) ' ' <+: List.replicate (2 * (d + 1)) ' '
  have he : 2 * (d + 1) = 2 * d + 2 := by omega
  rw [he, List.replicate_add]
  exact List.prefix_append _ _

theorem all_prefix_weaken (d : Nat) (L : List String)
    (h : L.all (fun l => (indentOf (d + 1)).toList.isPrefixOf l.toList) = true) :
    L.all (fun l => (indentOf d).toList.isPrefixOf l.toList) = true := by
  rw [List.all_eq_true] at h ⊢
  intro l hl
  exact prefix_weaken d l.toList (h l hl)

mutual

theorem exprLines_indent (e : Expression) (d : Nat) :
    (exprLines e d).all
      (fun l => (indentOf d).toList.isPrefixOf l.toList) = true := by
  cases e with
  | cond c =>
    simp only [exprLines, List.all_cons, List.all_nil, Bool.and_true]
    exact indent_prefix_self d (format_condition c)
  | AndExpr cs =>
    cases cs with
    | nil =>
      simp only [exprLines, List.all_cons, List.all_nil, Bool.and_true]
      exact indent_prefix_self d "ALL of: (empty)"
    | cons c cs2 =>
      simp only [exprLines, List.all_cons]
      rw [indent_prefix_self d "ALL of:",
        all_prefix_weaken d (exprLinesList (c :: cs2) (d + 1))
          (exprLinesList_indent (c :: cs2) (d + 1))]
      rfl
  | OrExpr cs =>
    cases cs with
    | nil =>
      simp only [exprLines, List.all_cons, List.all_nil, Bool.and_true]
      exact indent_prefix_self d "ANY of: (empty)"
    | cons c cs2 =>
      simp only [exprLines, List.all_cons]
      rw [indent_prefix_self d "ANY of:",
        all_prefix_weaken d (exprLinesList (c :: cs2) (d + 1))
          (exprLinesList_indent (c :: cs2) (d + 1))]
      rfl
  | NotExpr c =>
    simp only [exprLines, List.all_cons]
    rw [indent_prefix_self d "NOT:",
      all_prefix_weaken d (exprLines c (d + 1)) (exprLines_indent c (d + 1))]
    rfl

theorem exprLinesList_indent (cs : List Expression) (d : Nat) :
    (exprLinesList cs d).all
      (fun l => (indentOf d).toList.isPrefixOf l.toList) = true := by
  cases cs with
  | nil => rfl
  | cons c cs2 =>
    show (exprLines c d ++ exprLinesList cs2 d).all
        (fun l => (indentOf d).toList.isPrefixOf l.toList) = true
    rw [List.all_append, exprLines_indent c d, exprLinesList_indent cs2 d]
    rfl

end

theorem exprLines_head (e : Expression) (d : Nat) :
    (exprLines e d).head? = some (indentOf d ++ nodeLabel e) := by
  cases e with
  | cond c => rfl
  | AndExpr cs => cases cs <;> rfl
  | OrExpr cs => cases cs <;> rfl
  | NotExpr c => rfl

theorem count_newline_intercalate (x : String) (xs : List String)
    (h : (x :: xs).all (fun l => !l.toList.contains '\n') = true) :
    (String.intercalate "\n" (x :: xs)).toList.count '\n' + 1
      = (x :: xs).length := by
  induction xs generalizing x with
  | nil =>
    have hx : x.toList.contains '\n' = false := by simpa using h
    show x.toList.count '\n' + 1 = 1
    rw [List.count_eq_zero.mpr ((contains_eq_false_iff _ _).mp hx)]
  | cons y ys ih =>
    rw [List.all_cons, Bool.and_eq_true] at h
    obtain ⟨hx, hrest⟩ := h
    have hx' : x.toList.contains '\n' = false := by simpa using hx
    rw [intercalate_cons_ne_nil "\n" x (y :: ys) (by simp)]
    have hsplit : (x ++ "\n" ++ String.intercalate "\n" (y :: ys)).toList
        = x.toList ++ ("\n".toList ++ (String.intercalate "\n" (y :: ys)).toList) := by
      show (x.data ++ "\n".data) ++ (String.intercalate "\n" (y :: ys)).data = _
      rw [List.append_assoc]
      rfl
    rw [hsplit, List.count_append, List.count_append]
    rw [List.count_eq_zero.mpr ((contains_eq_false_iff _ _).mp hx')]
    have hih := ih y (by simpa [List.all_cons] using hrest)
    have : ("\n".toList.count '\n') = 1 := rfl
    rw [this]
    simp only [List.length_cons] at hih ⊢
    omega

/-! ### Claim theorems -/

/-- C1: for every expression `e` and every row `r`, evaluating the negation
node equals the boolean negation of evaluating the child:
`evaluate_expression r (NotExpr e) = !evaluate_expression r e`. -/
theorem C1_not_is_negation (row : Row) (e : Expression) :
    evaluate_expression row (Expression.NotExpr e)
      = !evaluate_expression row e := rfl

/-- C2: for every row, an empty `AndExpr` evaluates to `true` and an empty
`OrExpr` to `false`; in general an `AndExpr` evaluates to the conjunction
of its children's values (`List.all`) and an `OrExpr` to the disjunction
(`List.any`). -/
theorem C2_and_or_semantics (row : Row) :
    evaluate_expression row (Expression.AndExpr []) = true
    ∧ evaluate_expression row (Expression.OrExpr []) = false
    ∧ ∀ cs : List Expression,
        evaluate_expression row (Expression.AndExpr cs)
          = cs.all (evaluate_expression row)
        ∧ evaluate_expression row (Expression.OrExpr cs)
          = cs.any (evaluate_expression row) := by
  refine ⟨rfl, rfl, fun cs => ⟨?_, ?_⟩⟩
  · simpa [evaluate_expression] using evalAllChildren_eq_all row cs
  · simpa [evaluate_expression] using evalAnyChildren_eq_any row cs

/-- C5: for every row, column and comparison value, `equals` and
`not_equals` conditions are exact complements: `not_equals` evaluates to
the boolean negation of `equals`, hence exactly one of the two is true. -/
theorem C5_equals_complement (row : Row) (col : String) (v : Option String) :
    evaluate_single_condition row ⟨col, "not_equals", v⟩
      = !evaluate_single_condition row ⟨col, "equals", v⟩
    ∧ (evaluate_single_condition row ⟨col, "equals", v⟩ = true
       ∨ evaluate_single_condition row ⟨col, "not_equals", v⟩ = true) := by
  constructor
  · rfl
  · rcases h : evaluate_single_condition row ⟨col, "equals", v⟩ with _ | _
    · right
      show (!evaluate_single_condition row ⟨col, "equals", v⟩) = true
      rw [h]
      rfl
    · left
      rfl

/-- C10: the old flat evaluator and the tree evaluator agree: for every row
and condition list, `evaluate_conditions r cs` equals
`evaluate_expression r (AndExpr cs)` (conditions injected as leaves), and
both are `true` on the empty list. -/
theorem C10_flat_tree_agree (row : Row) (cs : List Condition) :
    evaluate_conditions row cs
      = evaluate_expression row (Expression.AndExpr (cs.map Expression.cond))
    ∧ evaluate_conditions row [] = true := by
  refine ⟨?_, rfl⟩
  induction cs with
  | nil => rfl
  | cons c cs ih =>
    show (if evaluate_single_condition row c then evaluate_conditions row cs
          else false)
        = (evaluate_single_condition row c
            && evalAllChildren row (cs.map Expression.cond))
    rw [ih]
    cases evaluate_single_condition row c <;>
      simp [evaluate_expression]

/-- C6: for every row and column, a `contains` condition with a `None` or
empty comparison value evaluates to `true` (vacuous containment), and in
general `contains` is true iff the comparison value is a substring of the
trimmed cell value. -/
theorem C6_contains_semantics (row : Row) (col : String) :
    evaluate_single_condition row ⟨col, "contains", none⟩ = true
    ∧ evaluate_single_condition row ⟨col, "contains", some ""⟩ = true
    ∧ ∀ v : String,
        evaluate_single_condition row ⟨col, "contains", some v⟩
          = pyInStr v (effectiveValue row col) := by
  exact ⟨decide_eq_true List.nil_infix, decide_eq_true List.nil_infix,
    fun v => rfl⟩

/-- C3: single-condition evaluation factors through the effective value of
`input_col`: an absent column and a missing (`NaN`) cell both give the
empty string, a string cell gives its trim, and the result of evaluation
depends on the row only through this trimmed effective value. -/
theorem C3_trimmed_value_basis (row : Row) (cond : Condition) :
    evaluate_single_condition row cond
      = applyOperator cond (effectiveValue row cond.input_col)
    ∧ (rowLookup row cond.input_col = none →
        effectiveValue row cond.input_col = "")
    ∧ (rowLookup row cond.input_col = some Cell.na →
        effectiveValue row cond.input_col = "")
    ∧ (∀ s, rowLookup row cond.input_col = some (Cell.str s) →
        effectiveValue row cond.input_col = pyStrip s)
    ∧ ∀ row' : Row,
        effectiveValue row cond.input_col = effectiveValue row' cond.input_col →
        evaluate_single_condition row cond
          = evaluate_single_condition row' cond := by
  refine ⟨rfl, fun h => ?_, fun h => ?_, fun s h => ?_, fun row' h => ?_⟩
  · simp [effectiveValue, h]
  · simp [effectiveValue, h]
  · simp [effectiveValue, h]
  · show applyOperator cond (effectiveValue row cond.input_col)
      = applyOperator cond (effectiveValue row' cond.input_col)
    rw [h]

/-- Witness for C3 at concrete rows: a missing cell, an absent column, a
whitespace-padded cell, and two rows sharing the same effective value. -/
theorem C3_trimmed_value_basis_witness :
    effectiveValue [("A", Cell.na)] "A" = ""
    ∧ effectiveValue [] "B" = ""
    ∧ effectiveValue [("C", Cell.str " x ")] "C" = pyStrip " x "
    ∧ evaluate_single_condition [("C", Cell.str " x ")] ⟨"C", "equals", some "x"⟩
        = evaluate_single_condition [("C", Cell.str "x")] ⟨"C", "equals", some "x"⟩ :=
  ⟨(C3_trimmed_value_basis [("A", Cell.na)] ⟨"A", "equals", some ""⟩).2.2.1
      (by decide),
   (C3_trimmed_value_basis [] ⟨"B", "equals", some ""⟩).2.1 (by decide),
   (C3_trimmed_value_basis [("C", Cell.str " x ")] ⟨"C", "equals", some "x"⟩).2.2.2.1
      " x " (by decide),
   (C3_trimmed_value_basis [("C", Cell.str " x ")] ⟨"C", "equals", some "x"⟩).2.2.2.2
      [("C", Cell.str "x")] (by decide)⟩

/-- C4: a `word_count` condition whose payload does not parse as
`kind:int` (wrong arity or non-integer number part, including a `None`
value) evaluates to `false`; when the payload parses as `(kind, n)` with
`kind` one of `gt`, `lt`, `eq`, the word count of the trimmed cell is
compared to `n` with `>`, `<`, `=` respectively (and the empty trimmed
value has zero words). -/
theorem C4_word_count_semantics (row : Row) (col : String) (v : Option String) :
    (wordCountParse v = none →
      evaluate_single_condition row ⟨col, "word_count", v⟩ = false)
    ∧ (∀ n : Int,
        (wordCountParse v = some ("gt", n) →
          evaluate_single_condition row ⟨col, "word_count", v⟩
            = decide ((pyWordCount (effectiveValue row col) : Int) > n))
        ∧ (wordCountParse v = some ("lt", n) →
          evaluate_single_condition row ⟨col, "word_count", v⟩
            = decide ((pyWordCount (effectiveValue row col) : Int) < n))
        ∧ (wordCountParse v = some ("eq", n) →
          evaluate_single_condition row ⟨col, "word_count", v⟩
            = decide ((pyWordCount (effectiveValue row col) : Int) = n)))
    ∧ pyWordCount "" = 0 := by
  have hb : evaluate_single_condition row ⟨col, "word_count", v⟩
      = (match wordCountParse v with
         | none => false
         | some (cmpOp, num) =>
           if cmpOp = "gt" then
             decide ((pyWordCount (effectiveValue row col) : Int) > num)
           else if cmpOp = "lt" then
             decide ((pyWordCount (effectiveValue row col) : Int) < num)
           else if cmpOp = "eq" then
             decide ((pyWordCount (effectiveValue row col) : Int) = num)
           else false) := rfl
  refine ⟨fun h => ?_, fun n => ⟨fun h => ?_, fun h => ?_, fun h => ?_⟩, rfl⟩ <;>
    rw [hb, h] <;> rfl

/-- Witness for C4: `"bogus"` (wrong arity), `"gt:abc"` (non-integer) and
`None` all yield `false`; `"eq:2"` on a two-word cell yields `true` via
the `eq` comparison. -/
theorem C4_word_count_semantics_witness :
    evaluate_single_condition [("N", Cell.str " John Doe ")]
        ⟨"N", "word_count", some "bogus"⟩ = false
    ∧ evaluate_single_condition [("N", Cell.str " John Doe ")]
        ⟨"N", "word_count", some "gt:abc"⟩ = false
    ∧ evaluate_single_condition [("N", Cell.str " John Doe ")]
        ⟨"N", "word_count", none⟩ = false
    ∧ evaluate_single_condition [("N", Cell.str " John Doe ")]
        ⟨"N", "word_count", some "eq:2"⟩
        = decide ((pyWordCount (effectiveValue [("N", Cell.str " John Doe ")] "N") : Int) = 2) :=
  ⟨(C4_word_count_semantics [("N", Cell.str " John Doe ")] "N" (some "bogus")).1
      (by decide),
   (C4_word_count_semantics [("N", Cell.str " John Doe ")] "N" (some "gt:abc")).1
      (by decide),
   (C4_word_count_semantics [("N", Cell.str " John Doe ")] "N" none).1
      (by decide),
   ((C4_word_count_semantics [("N", Cell.str " John Doe ")] "N" (some "eq:2")).2.1
      2).2.2 (by decide)⟩

/-- C7: an `alpha_only` condition evaluates to `true` iff after removing
space characters from the trimmed cell value the remainder is non-empty
and all-alphabetic; in particular it is `false` on an empty trimmed value
and whenever a character is neither alphabetic nor a space (digits,
punctuation), and `true` whenever the value is made of letters and spaces
with at least one letter. -/
theorem C7_alpha_only_semantics (row : Row) (col : String) (v : Option String) :
    evaluate_single_condition row ⟨col, "alpha_only", v⟩
      = (!((effectiveValue row col).toList.filter (fun c => c != ' ')).isEmpty
         && ((effectiveValue row col).toList.filter (fun c => c != ' ')).all
              Char.isAlpha)
    ∧ (effectiveValue row col = "" →
        evaluate_single_condition row ⟨col, "alpha_only", v⟩ = false)
    ∧ ((effectiveValue row col).toList.any (fun c => !c.isAlpha && c != ' ')
          = true →
        evaluate_single_condition row ⟨col, "alpha_only", v⟩ = false)
    ∧ ((effectiveValue row col).toList.all (fun c => c.isAlpha || c == ' ')
          = true →
        (effectiveValue row col).toList.any Char.isAlpha = true →
        evaluate_single_condition row ⟨col, "alpha_only", v⟩ = true) := by
  have hbase :
      evaluate_single_condition row ⟨col, "alpha_only", v⟩
        = (!((effectiveValue row col).toList.filter (fun c => c != ' ')).isEmpty
           && ((effectiveValue row col).toList.filter (fun c => c != ' ')).all
                Char.isAlpha) := by
    show (if effectiveValue row col = "" then false
          else !((effectiveValue row col).toList.filter (fun c => c != ' ')).isEmpty
           && ((effectiveValue row col).toList.filter (fun c => c != ' ')).all
                Char.isAlpha) = _
    by_cases h : effectiveValue row col = ""
    · simp [h]
    · simp [h]
  refine ⟨hbase, fun h => ?_, fun h => ?_, fun hall hany => ?_⟩
  · rw [hbase]
    simp [h]
  · rw [hbase]
    rcases List.any_eq_true.mp h with ⟨c, hc, hprop⟩
    have hca : c.isAlpha = false := by
      rcases hca : c.isAlpha with _ | _
      · rfl
      · simp [hca] at hprop
    have hcs : (c != ' ') = true := by
      rcases hcs : (c != ' ') with _ | _
      · simp [hcs] at hprop
      · rfl
    have hmem : c ∈ (effectiveValue row col).toList.filter (fun c => c != ' ') :=
      List.mem_filter.mpr ⟨hc, hcs⟩
    have : ((effectiveValue row col).toList.filter (fun c => c != ' ')).all
        Char.isAlpha = false := by
      rcases hal : ((effectiveValue row col).toList.filter
          (fun c => c != ' ')).all Char.isAlpha with _ | _
      · rfl
      · have := List.all_eq_true.mp hal c hmem
        rw [hca] at this
        exact absurd this (by simp)
    rw [this, Bool.and_false]
  · rw [hbase]
    rcases List.any_eq_true.mp hany with ⟨c, hc, hca⟩
    have hcs : (c != ' ') = true := by
      rcases hceq : c == ' ' with _ | _
      · simp [bne, hceq]
      · have : c = ' ' := by
          have := eq_of_beq hceq
          exact this
        rw [this] at hca
        exact absurd hca (by decide)
    have hmem : c ∈ (effectiveValue row col).toList.filter (fun c => c != ' ') :=
      List.mem_filter.mpr ⟨hc, hcs⟩
    have h1 : (!((effectiveValue row col).toList.filter
        (fun c => c != ' ')).isEmpty) = true := by
      rcases hl : (effectiveValue row col).toList.filter (fun c => c != ' ') with
          _ | ⟨d, ds⟩
      · rw [hl] at hmem
        exact absurd hmem (by simp)
      · rfl
    have h2 : ((effectiveValue row col).toList.filter
        (fun c => c != ' ')).all Char.isAlpha = true := by
      refine List.all_eq_true.mpr fun d hd => ?_
      rcases List.mem_filter.mp hd with ⟨hdl, hds⟩
      have := List.all_eq_true.mp hall d hdl
      rcases hda : d.isAlpha with _ | _
      · exfalso
        rw [hda, Bool.false_or] at this
        rw [eq_of_beq this] at hds
        exact absurd hds (by decide)
      · rfl
    rw [h1, h2]
    rfl

/-- C9 counterexample: the claim quantifies over every expression tree,
but a condition whose column name contains a newline character renders on
two physical lines, so the output has three lines for a two-node tree. -/
theorem C9_one_line_per_node_cex :
    ¬ ((format_expression
          (Expression.AndExpr [Expression.cond ⟨"a\nb", "not_empty", none⟩])
          0).toList.count '\n' + 1
        = nodeCount
            (Expression.AndExpr [Expression.cond ⟨"a\nb", "not_empty", none⟩])) := by
  decide

/-- C9 (amended): `format_expression` output is the newline-join of a
per-node line list: one entry per node, children flattened in order after
their parent's header, the node's own line carrying exactly its depth's
indentation followed by its label (`ALL of:`, `ANY of:`, `NOT:`,
`(empty)` forms, or the condition description), and every line of a
subtree carrying the subtree root's indentation as a prefix; provided no
condition description contains a newline, every entry is a single
physical line, so the rendered string has exactly one physical line per
node.  Determinism is inherent: the formatter is a pure function. -/
theorem C9_format_renders_tree (e : Expression) (d : Nat) :
    format_expression e d = String.intercalate "\n" (exprLines e d)
    ∧ (exprLines e d).length = nodeCount e
    ∧ (exprLines e d).head? = some (indentOf d ++ nodeLabel e)
    ∧ (exprLines e d).all
        (fun l => (indentOf d).toList.isPrefixOf l.toList) = true
    ∧ (descriptionsOneLine e = true →
        (exprLines e d).all (fun l => !l.toList.contains '\n') = true
        ∧ (format_expression e d).toList.count '\n' + 1 = nodeCount e) := by
  refine ⟨format_expression_eq_lines e d, exprLines_length_eq e d,
    exprLines_head e d, exprLines_indent e d,
    fun h => ⟨exprLines_no_newline e d h, ?_⟩⟩
  rw [format_expression_eq_lines e d]
  rcases hl : exprLines e d with _ | ⟨x, xs⟩
  · exact absurd hl (exprLines_ne_nil e d)
  · have hc := count_newline_intercalate x xs
      (by rw [← hl]; exact exprLines_no_newline e d h)
    rw [hc, ← hl]
    exact exprLines_length_eq e d

/-- Witness for C9 on the two concrete trees of the spec scenarios: a
group with a condition and a negated condition, rendered at depth 0. -/
theorem C9_format_renders_tree_witness :
    (exprLines
        (Expression.AndExpr [Expression.cond ⟨"Age", "not_empty", none⟩,
          Expression.NotExpr (Expression.cond ⟨"Name", "equals", some "Jane"⟩)])
        0).all (fun l => !l.toList.contains '\n') = true
    ∧ (format_expression
        (Expression.AndExpr [Expression.cond ⟨"Age", "not_empty", none⟩,
          Expression.NotExpr (Expression.cond ⟨"Name", "equals", some "Jane"⟩)])
        0).toList.count '\n' + 1
      = nodeCount
          (Expression.AndExpr [Expression.cond ⟨"Age", "not_empty", none⟩,
            Expression.NotExpr (Expression.cond ⟨"Name", "equals", some "Jane"⟩)]) :=
  (C9_format_renders_tree
      (Expression.AndExpr [Expression.cond ⟨"Age", "not_empty", none⟩,
        Expression.NotExpr (Expression.cond ⟨"Name", "equals", some "Jane"⟩)])
      0).2.2.2.2 (by decide)

/-- Witness for C7: `"John Doe"` (letters and spaces) is alpha-only,
`"30"` (digits) and the empty value are not. -/
theorem C7_alpha_only_semantics_witness :
    evaluate_single_condition [("A", Cell.str "John Doe")]
        ⟨"A", "alpha_only", none⟩ = true
    ∧ evaluate_single_condition [("A", Cell.str "30")]
        ⟨"A", "alpha_only", none⟩ = false
    ∧ evaluate_single_condition [] ⟨"A", "alpha_only", none⟩ = false :=
  ⟨(C7_alpha_only_semantics [("A", Cell.str "John Doe")] "A" none).2.2.2
      (by decide) (by decide),
   (C7_alpha_only_semantics [("A", Cell.str "30")] "A" none).2.2.1 (by decide),
   (C7_alpha_only_semantics [] "A" none).2.1 (by decide)⟩

theorem noEmptyGroupList_append (l1 l2 : List Expression) :
    noEmptyGroupList (l1 ++ l2)
      = (noEmptyGroupList l1 && noEmptyGroupList l2) := by
  induction l1 with
  | nil => simp [noEmptyGroupList]
  | cons c cs ih =>
    show (noEmptyGroup c && noEmptyGroupList (cs ++ l2))
        = ((noEmptyGroup c && noEmptyGroupList cs) && noEmptyGroupList l2)
    rw [ih, Bool.and_assoc]

theorem build_not_case (fuel : Nat)
    (hloop : ∀ (columns : List String) (group_type : String)
        (children : List Expression) (inp : List String),
        noEmptyGroupList children = true →
        noEmptyGroupList
          (build_group_loop columns group_type children fuel inp).1 = true) :
    ∀ (columns : List String) (inp : List String) (e : Expression),
      (build_not columns fuel inp).1 = some e → noEmptyGroup e = true := by
  intro columns inp e he
  match inp with
  | [] => simp [build_not] at he
  | raw :: rest =>
    simp only [build_not] at he
    rcases hp : pyInt? raw with _ | choice <;> rw [hp] at he
    · simp at he
    · dsimp only at he
      split_ifs at he with h0 h1 h2 h3
      · rcases hbs : build_single_condition columns rest with ⟨oc, rest2⟩
        rw [hbs] at he
        cases oc with
        | none => simp at he
        | some c =>
          simp at he
          rw [← he]
          rfl
      · rcases hbg : build_group_loop columns "and" [] fuel rest with ⟨cs, rest2⟩
        rw [hbg] at he
        cases cs with
        | nil => simp at he
        | cons c cs2 =>
          simp at he
          have hsub := hloop columns "and" [] rest rfl
          rw [hbg] at hsub
          rw [← he]
          show (!(c :: cs2).isEmpty && noEmptyGroupList (c :: cs2)) = true
          rw [hsub]
          rfl
      · rcases hbg : build_group_loop columns "or" [] fuel rest with ⟨cs, rest2⟩
        rw [hbg] at he
        cases cs with
        | nil => simp at he
        | cons c cs2 =>
          simp at he
          have hsub := hloop columns "or" [] rest rfl
          rw [hbg] at hsub
          rw [← he]
          show (!(c :: cs2).isEmpty && noEmptyGroupList (c :: cs2)) = true
          rw [hsub]
          rfl

theorem builder_preserves_no_empty (fuel : Nat) :
    (∀ (columns : List String) (group_type : String)
        (children : List Expression) (inp : List String),
        noEmptyGroupList children = true →
        noEmptyGroupList
          (build_group_loop columns group_type children fuel inp).1 = true)
    ∧ (∀ (columns : List String) (inp : List String) (e : Expression),
        (build_not columns fuel inp).1 = some e → noEmptyGroup e = true) := by
  induction fuel with
  | zero =>
    have hloop : ∀ (columns : List String) (group_type : String)
        (children : List Expression) (inp : List String),
        noEmptyGroupList children = true →
        noEmptyGroupList
          (build_group_loop columns group_type children 0 inp).1 = true := by
      intro columns gt children inp hch
      simpa [build_group_loop] using hch
    exact ⟨hloop, build_not_case 0 hloop⟩
  | succ n ih =>
    have hloop : ∀ (columns : List String) (group_type : String)
        (children : List Expression) (inp : List String),
        noEmptyGroupList children = true →
        noEmptyGroupList
          (build_group_loop columns group_type children (n + 1) inp).1 = true := by
      intro columns gt children inp hch
      match inp with
      | [] => simpa [build_group_loop] using hch
      | raw :: rest =>
        simp only [build_group_loop]
        rcases hp : pyInt? raw with _ | choice
        · exact ih.1 columns gt children rest hch
        · dsimp only
          split_ifs with h0 h1 h2 h3 h4
          · exact hch
          · rcases hbs : build_single_condition columns rest with ⟨oc, rest2⟩
            cases oc with
            | none => exact ih.1 columns gt children rest2 hch
            | some c =>
              refine ih.1 columns gt (children ++ [Expression.cond c]) rest2 ?_
              rw [noEmptyGroupList_append, hch]
              rfl
          · rcases hbg : build_group_loop columns "and" [] n rest with ⟨cs, rest2⟩
            cases cs with
            | nil => exact ih.1 columns gt children rest2 hch
            | cons c cs2 =>
              have hsub : noEmptyGroupList (c :: cs2) = true := by
                have h5 := ih.1 columns "and" [] rest rfl
                rw [hbg] at h5
                exact h5
              refine ih.1 columns gt
                (children ++ [Expression.AndExpr (c :: cs2)]) rest2 ?_
              rw [noEmptyGroupList_append, hch]
              show (true && ((!(c :: cs2).isEmpty && noEmptyGroupList (c :: cs2))
                && true)) = true
              rw [hsub]
              rfl
          · rcases hbg : build_group_loop columns "or" [] n rest with ⟨cs, rest2⟩
            cases cs with
            | nil => exact ih.1 columns gt children rest2 hch
            | cons c cs2 =>
              have hsub : noEmptyGroupList (c :: cs2) = true := by
                have h5 := ih.1 columns "or" [] rest rfl
                rw [hbg] at h5
                exact h5
              refine ih.1 columns gt
                (children ++ [Expression.OrExpr (c :: cs2)]) rest2 ?_
              rw [noEmptyGroupList_append, hch]
              show (true && ((!(c :: cs2).isEmpty && noEmptyGroupList (c :: cs2))
                && true)) = true
              rw [hsub]
              rfl
          · rcases hbn : build_not columns n rest with ⟨oe, rest2⟩
            cases oe with
            | none => exact ih.1 columns gt children rest2 hch
            | some e2 =>
              have he2 : noEmptyGroup e2 = true := by
                refine ih.2 columns rest e2 ?_
                rw [hbn]
              refine ih.1 columns gt (children ++ [e2]) rest2 ?_
              rw [noEmptyGroupList_append, hch]
              show (true && (noEmptyGroup e2 && true)) = true
              rw [he2]
              rfl
          · exact ih.1 columns gt children rest hch
    exact ⟨hloop, build_not_case (n + 1) hloop⟩

/-- C8: for every run of the builder protocol (any column list and any
script of user inputs), `build_expression` returns an `AndExpr` whose
children — and all nodes below them — contain no empty `AndExpr` or
`OrExpr` node and no `NotExpr` wrapping one: empty sub-groups and empty
negated groups are discarded; only the top-level `AndExpr` may be empty,
and an empty interaction returns `AndExpr []` as-is. -/
theorem C8_no_empty_nested_groups (columns inp : List String) :
    topLevelOk (build_expression columns inp) = true
    ∧ build_expression columns [] = Expression.AndExpr [] := by
  constructor
  · show noEmptyGroupList
        (build_group_loop columns "and" [] inp.length inp).1 = true
    exact (builder_preserves_no_empty inp.length).1 columns "and" [] inp rfl
  · show (build_group columns "and" []).1 = Expression.AndExpr []
    simp [build_group, build_group_loop]

end CsvMe
